import Mathlib

/-!
Verification development for the Despacho log processor
(`src/processor.py`).  The Python source is shallowly embedded: lines are
`List Char`, the anchored regex `LOG_PATTERN` becomes a deterministic
character-level matcher, exceptions become an `Except` error type, and
`datetime`/`date`/`time` values become plain structures over `Nat` with
explicit Gregorian day arithmetic.
-/

namespace Despacho

/-- The whitespace characters relevant to `str.strip` and the regex class
`\s` (ASCII range; the inputs of interest contain no exotic Unicode
whitespace). -/
def isSpace (c : Char) : Bool :=
  c == ' ' || c == '\t' || c == '\n' || c == '\r' || c == '\x0b' || c == '\x0c'

/-- ASCII digit test, the `\d` class restricted to ASCII. -/
def isDigit (c : Char) : Bool :=
  48 ≤ c.toNat && c.toNat ≤ 57

/-- ASCII uppercase test, the `[A-Z]` class. -/
def isUpper (c : Char) : Bool :=
  65 ≤ c.toNat && c.toNat ≤ 90

/-- ASCII lowering, modelling `str.lower` on the ASCII plane. -/
def asciiLower (c : Char) : Char :=
  if isUpper c then Char.ofNat (c.toNat + 32) else c

/-- Numeric value of an ASCII digit character. -/
def charToDigit (c : Char) : Nat :=
  c.toNat - 48

/-- The decimal digit character for a value below ten. -/
def digitChar : Nat → Char
  | 0 => '0'
  | 1 => '1'
  | 2 => '2'
  | 3 => '3'
  | 4 => '4'
  | 5 => '5'
  | 6 => '6'
  | 7 => '7'
  | 8 => '8'
  | _ => '9'

/-- `str.strip`: drop leading and trailing whitespace. -/
def strip (l : List Char) : List Char :=
  ((l.dropWhile isSpace).reverse.dropWhile isSpace).reverse

/-- Greedy `\s*`. -/
def dropSpaces (l : List Char) : List Char :=
  l.dropWhile isSpace

/-- The character class `[-–]` (hyphen or en-dash). -/
def isDash (c : Char) : Bool :=
  c == '-' || c == '–'

/-- Consume one dash character. -/
def expectDash : List Char → Option (List Char)
  | c :: rest => if isDash c then some rest else none
  | [] => none

/-- Consume an exact literal. -/
def expectLit : List Char → List Char → Option (List Char)
  | [], rest => some rest
  | c :: cs, d :: rest => if c == d then expectLit cs rest else none
  | _ :: _, [] => none

/-- Greedy `\d+` (possibly empty) prefix split. -/
def takeDigits : List Char → List Char × List Char
  | [] => ([], [])
  | c :: rest =>
    if isDigit c then
      let p := takeDigits rest
      (c :: p.1, p.2)
    else ([], c :: rest)

/-- `int` applied to a string of ASCII digits. -/
def digitsToNat (l : List Char) : Nat :=
  l.foldl (fun a c => a * 10 + charToDigit c) 0

/-- `CLOCK_PATTERN = \d{2}(?::|h)\d{2}h?`: two digits, a colon-or-`h`
separator, two digits, and a greedy optional trailing `h`.  Returns the
matched clock text and the remaining input. -/
def matchClock : List Char → Option (List Char × List Char)
  | a :: b :: s :: d :: e :: rest =>
    if isDigit a && isDigit b && (s == ':' || s == 'h') && isDigit d && isDigit e then
      match rest with
      | f :: rest2 => if f == 'h' then some ([a, b, s, d, e, f], rest2)
                      else some ([a, b, s, d, e], f :: rest2)
      | [] => some ([a, b, s, d, e], [])
    else none
  | _ => none

/-- The literal mid-section of `LOG_PATTERN`. -/
def aberturaLit : List Char :=
  ( "Abertura da tela de Despacho").toList

/-- The literal tail-section marker of `LOG_PATTERN`. -/
def excedidoLit : List Char :=
  ( "EXCEDIDO EM:").toList

/-- `LOG_PATTERN.match` on an (already stripped) line: anchored at the
start, `\s*`-tolerant around each dash, three uppercase letters for the
company, `\d+` for the percentage, a literal `%`, and `\s*$` at the end.
Yields the raw clock text, the company characters and the percentage. -/
def matchLine (line : List Char) : Option (List Char × List Char × Nat) :=
  match matchClock line with
  | none => none
  | some (clock, r1) =>
    match expectDash (dropSpaces r1) with
    | none => none
    | some r2 =>
      match expectLit aberturaLit (dropSpaces r2) with
      | none => none
      | some r3 =>
        match expectDash (dropSpaces r3) with
        | none => none
        | some r4 =>
          match dropSpaces r4 with
          | c1 :: c2 :: c3 :: r5 =>
            if isUpper c1 && isUpper c2 && isUpper c3 then
              match expectDash (dropSpaces r5) with
              | none => none
              | some r6 =>
                match expectLit excedidoLit (dropSpaces r6) with
                | none => none
                | some r7 =>
                  match takeDigits (dropSpaces r7) with
                  | ([], _) => none
                  | (ds, r8) =>
                    match dropSpaces r8 with
                    | pc :: r9 =>
                      if pc == '%' && r9.all isSpace then
                        some (clock, [c1, c2, c3], digitsToNat ds)
                      else none
                    | [] => none
            else none
          | _ => none

/-- A wall-clock time as produced by `datetime.strptime(_, "%H:%M").time()`
(seconds and microseconds are always zero in this program). -/
structure Time where
  hour : Nat
  minute : Nat
deriving DecidableEq, Repr

/-- Python `time` comparison: lexicographic on (hour, minute). -/
def timeLt (a b : Time) : Bool :=
  decide (a.hour < b.hour ∨ (a.hour = b.hour ∧ a.minute < b.minute))

/-- A calendar date (`datetime.date`). -/
structure Date where
  year : Nat
  month : Nat
  day : Nat
deriving DecidableEq, Repr

/-- Gregorian leap-year rule. -/
def isLeap (y : Nat) : Bool :=
  (y % 4 == 0 && y % 100 != 0) || y % 400 == 0

/-- Length of a Gregorian month. -/
def daysInMonth (y m : Nat) : Nat :=
  if m == 2 then (if isLeap y then 29 else 28)
  else if m == 4 || m == 6 || m == 9 || m == 11 then 30
  else 31

/-- `d + timedelta(days=1)`. -/
def nextDay (d : Date) : Date :=
  if d.day < daysInMonth d.year d.month then ⟨d.year, d.month, d.day + 1⟩
  else if d.month < 12 then ⟨d.year, d.month + 1, 1⟩
  else ⟨d.year + 1, 1, 1⟩

/-- `datetime.combine(date, time)`: a full timestamp. -/
structure DateTime where
  date : Date
  time : Time
deriving DecidableEq, Repr

/-- The structured dispatch record (`DispatchRecord` dataclass). -/
structure DispatchRecord where
  timestamp : DateTime
  company : List Char
  exceeded_percent : Nat
deriving DecidableEq, Repr

/-- `%02d` rendering for the values `datetime` can hold in a month, day,
hour or minute field (all below 100). -/
def pad2 (n : Nat) : List Char :=
  [digitChar (n / 10), digitChar (n % 10)]

/-- `%Y` rendering for four-digit years. -/
def pad4 (n : Nat) : List Char :=
  [digitChar (n / 1000), digitChar (n / 100 % 10), digitChar (n / 10 % 10), digitChar (n % 10)]

/-- `strftime("%Y-%m-%dT%H:%M")`: minute-precision ISO-like rendering. -/
def fmtDateTimeMin (dt : DateTime) : List Char :=
  pad4 dt.date.year ++ '-' :: pad2 dt.date.month ++ '-' :: pad2 dt.date.day ++
    'T' :: pad2 dt.time.hour ++ ':' :: pad2 dt.time.minute

/-- `timestamp + timedelta(hours=3)` on a valid Python `datetime`
(hour below 24): at most one midnight is crossed. -/
def addHours3 (dt : DateTime) : DateTime :=
  if dt.time.hour + 3 ≤ 23 then ⟨dt.date, ⟨dt.time.hour + 3, dt.time.minute⟩⟩
  else ⟨nextDay dt.date, ⟨dt.time.hour + 3 - 24, dt.time.minute⟩⟩

/-- `DispatchRecord.adjusted_iso`: shift the timestamp by three hours and
render it at minute precision with a trailing `Z`. -/
def DispatchRecord.adjusted_iso (r : DispatchRecord) : List Char :=
  fmtDateTimeMin (addHours3 r.timestamp) ++ [ 'Z' ]

/-- The exceptions the program can raise while parsing: the two
`ParseError` shapes (pattern mismatch with 1-based line number and raw
line; invalid clock with the offending clock text) and the plain
`ValueError` that `datetime.strptime` raises on an out-of-range clock. -/
inductive PyError where
  | patternError (lineNumber : Nat) (raw : List Char)
  | invalidClock (clock : List Char)
  | valueError (s : List Char)
deriving DecidableEq, Repr

/-- `isinstance(e, ParseError)`: `strptime`'s `ValueError` is not a
`ParseError`. -/
def PyError.isParseError : PyError → Bool
  | .patternError _ _ => true
  | .invalidClock _ => true
  | .valueError _ => false

/-- The pure transformation inside `_normalize_clock`: strip, lower, drop
one trailing `h` (`endswith("h")` then `[:-1]`), replace every `h` by
`:`. -/
def clockTransform (clock : List Char) : List Char :=
  let lowered := (strip clock).map asciiLower
  let unh := if lowered.getLast? == some 'h' then lowered.dropLast else lowered
  unh.map (fun c => if c == 'h' then ':' else c)

/-- `re.fullmatch(r"\d{2}:\d{2}", s)` as a Boolean shape test. -/
def isHHMM : List Char → Bool
  | [a, b, s, d, e] => isDigit a && isDigit b && s == ':' && isDigit d && isDigit e
  | _ => false

/-- `_normalize_clock`: normalize the clock text and require the
`\d\d:\d\d` shape, else raise `ParseError` carrying the original clock. -/
def normalize_clock (clock : List Char) : Except PyError (List Char) :=
  let n := clockTransform clock
  if isHHMM n then .ok n else .error (.invalidClock clock)

/-- `datetime.strptime(s, "%H:%M").time()` on the `\d\d:\d\d` shapes that
clock normalization produces: succeeds exactly when the hour is at most 23
and the minute at most 59, else raises `ValueError`.  (Shapes other than
`\d\d:\d\d` never reach this call in `parse_records`; the model rejects
them too.) -/
def strptimeHM (s : List Char) : Except PyError Time :=
  match s with
  | [a, b, sep, d, e] =>
    if sep == ':' && (isDigit a && isDigit b && isDigit d && isDigit e) then
      let h := charToDigit a * 10 + charToDigit b
      let m := charToDigit d * 10 + charToDigit e
      if h ≤ 23 && m ≤ 59 then .ok ⟨h, m⟩ else .error (.valueError s)
    else .error (.valueError s)
  | _ => .error (.valueError s)

/-- The rollover update of `parse_records`: when a previous clock exists
and the current clock is strictly earlier, advance the running date by one
day. -/
def stepDate (cur : Date) (prev : Option Time) (t : Time) : Date :=
  match prev with
  | none => cur
  | some p => if timeLt t p then nextDay cur else cur

/-- The loop of `parse_records`: `n` is the 1-based number of the next
line, `cur` the running date, `prev` the previously seen clock time.
Blank lines (after stripping) are skipped; a pattern mismatch, an invalid
clock or an out-of-range clock aborts the whole run with an error. -/
def parse_records_aux :
    List (List Char) → Nat → Date → Option Time → Except PyError (List DispatchRecord)
  | [], _, _, _ => .ok []
  | raw :: rest, n, cur, prev =>
    let line := strip raw
    if line.isEmpty then parse_records_aux rest (n + 1) cur prev
    else
      match matchLine line with
      | none => .error (.patternError n raw)
      | some (clockStr, company, percent) =>
        match normalize_clock clockStr with
        | .error e => .error e
        | .ok nclock =>
          match strptimeHM nclock with
          | .error e => .error e
          | .ok t =>
            let cur2 := stepDate cur prev t
            match parse_records_aux rest (n + 1) cur2 (some t) with
            | .error e => .error e
            | .ok recs => .ok (⟨⟨cur2, t⟩, company, percent⟩ :: recs)

/-- `parse_records(lines, shift_date)`. -/
def parse_records (lines : List (List Char)) (shift_date : Date) :
    Except PyError (List DispatchRecord) :=
  parse_records_aux lines 1 shift_date none

/-- The event a single line contributes, ignoring sequencing: `none` for a
blank line or any failing line, otherwise the (clock time, company,
percent) triple.  This is the per-line pipeline of `parse_records`
(pattern match, clock normalization, `strptime`). -/
def lineEvent (raw : List Char) : Option (Time × List Char × Nat) :=
  let line := strip raw
  if line.isEmpty then none
  else
    match matchLine line with
    | none => none
    | some (clockStr, company, percent) =>
      match normalize_clock clockStr with
      | .error _ => none
      | .ok nclock =>
        match strptimeHM nclock with
        | .error _ => none
        | .ok t => some (t, company, percent)

/-- All accepted events of an input, in input order. -/
def acceptedEvents (lines : List (List Char)) : List (Time × List Char × Nat) :=
  lines.filterMap lineEvent

/-- The event data carried by an output record. -/
def recordEvent (r : DispatchRecord) : Time × List Char × Nat :=
  (r.timestamp.time, r.company, r.exceeded_percent)

/-- A line that does not abort the run: blank, or fully parseable. -/
def lineOk (raw : List Char) : Bool :=
  (strip raw).isEmpty || (lineEvent raw).isSome

/-- Decimal rendering of a natural number (used for the canonical line
form). -/
def natDigits (n : Nat) : List Char :=
  if _h : n < 10 then [digitChar n]
  else natDigits (n / 10) ++ [digitChar (n % 10)]
decreasing_by exact Nat.div_lt_self (by omega) (by omega)

/-- The canonical rendering of an event triple as a log line: normalized
clock, single-space hyphen-dash separators, decimal percent. -/
def render (t : Time) (company : List Char) (percent : Nat) : List Char :=
  pad2 t.hour ++ ':' :: pad2 t.minute ++
    ' ' :: '-' :: ' ' :: aberturaLit ++
    ' ' :: '-' :: ' ' :: company ++
    ' ' :: '-' :: ' ' :: excedidoLit ++
    ' ' :: natDigits percent ++ [ '%' ]

/-- Canonical form of a line: valid lines are replaced by the canonical
rendering of their event; other lines are left unchanged. -/
def canonLine (l : List Char) : List Char :=
  match lineEvent l with
  | some (t, c, p) => render t c p
  | none => l

/-- Rewrite only the clock prefix of a line to its normalized form,
leaving everything after the clock untouched.  Two lines are "equal up to
clock-separator normalization" when this map sends them to the same
list. -/
def normalizeLineClock (l : List Char) : List Char :=
  match matchClock l with
  | some (clock, rest) => clockTransform clock ++ rest
  | none => l

/-- Iterated `nextDay`. -/
def addDays (d : Date) : Nat → Date
  | 0 => d
  | k + 1 => addDays (nextDay d) k

/-- Spec-side reading of "add a fixed 3-hour offset" (section 4.3):
convert the time of day to minutes, add the offset, carry whole days into
the date.  Stated independently of `addHours3` so that the code's
adjusted-timestamp derivation can be compared against it. -/
def addMinutes (dt : DateTime) (k : Nat) : DateTime :=
  let tot := dt.time.hour * 60 + dt.time.minute + k
  ⟨addDays dt.date (tot / 1440), ⟨tot % 1440 / 60, tot % 60⟩⟩

/-- Hour field of a `\d\d:\d\d` clock string. -/
def hhmmHour : List Char → Nat
  | a :: b :: _ => charToDigit a * 10 + charToDigit b
  | _ => 0

/-- Minute field of a `\d\d:\d\d` clock string. -/
def hhmmMinute : List Char → Nat
  | [_, _, _, d, e] => charToDigit d * 10 + charToDigit e
  | _ => 0

/-! ## Character-level helper lemmas -/

theorem isDigit_toNat {c : Char} (h : isDigit c = true) :
    48 ≤ c.toNat ∧ c.toNat ≤ 57 := by
  simpa [isDigit] using h

theorem beq_false_of_digit_nondigit {c d : Char} (h : isDigit c = true)
    (hd : isDigit d = false) : (c == d) = false := by
  cases hb : c == d
  · rfl
  · rw [eq_of_beq hb] at h
    rw [h] at hd
    cases hd

theorem isSpace_false_of_digit {c : Char} (h : isDigit c = true) :
    isSpace c = false := by
  cases hb : isSpace c
  · rfl
  · exfalso
    simp only [isSpace, Bool.or_eq_true, beq_iff_eq] at hb
    rcases hb with ((((rfl | rfl) | rfl) | rfl) | rfl) | rfl <;> exact absurd h (by decide)

theorem isUpper_false_of_digit {c : Char} (h : isDigit c = true) :
    isUpper c = false := by
  obtain ⟨h1, h2⟩ := isDigit_toNat h
  simp only [isUpper]
  simp only [Bool.and_eq_false_iff, decide_eq_false_iff_not]
  omega

theorem asciiLower_of_digit {c : Char} (h : isDigit c = true) :
    asciiLower c = c := by
  simp [asciiLower, isUpper_false_of_digit h]

theorem dropWhile_false {p : Char → Bool} :
    ∀ {l : List Char}, (∀ c ∈ l, p c = false) → l.dropWhile p = l
  | [], _ => rfl
  | c :: rest, h => by
    have hc := h c (List.mem_cons_self c rest)
    simp [List.dropWhile_cons, hc]

theorem strip_of_no_space {l : List Char} (h : ∀ c ∈ l, isSpace c = false) :
    strip l = l := by
  unfold strip
  rw [dropWhile_false h,
    dropWhile_false (fun c hc => h c (List.mem_reverse.mp hc)),
    List.reverse_reverse]

theorem map_id_of {f : Char → Char} :
    ∀ {l : List Char}, (∀ c ∈ l, f c = c) → l.map f = l
  | [], _ => rfl
  | c :: rest, h => by
    simp only [List.map_cons, h c (List.mem_cons_self c rest)]
    rw [map_id_of fun d hd => h d (List.mem_cons_of_mem c hd)]

theorem timeLt_irrefl (t : Time) : timeLt t t = false := by
  simp [timeLt]

/-! ## Structural lemmas about the parsing loop -/

theorem parse_aux_blank {raw : List Char} (hb : (strip raw).isEmpty = true)
    (rest : List (List Char)) (n : Nat) (cur : Date) (prev : Option Time) :
    parse_records_aux (raw :: rest) n cur prev = parse_records_aux rest (n + 1) cur prev := by
  simp only [parse_records_aux]
  rw [if_pos hb]

theorem parse_aux_event {raw : List Char} {t : Time} {comp : List Char} {pct : Nat}
    (he : lineEvent raw = some (t, comp, pct))
    (rest : List (List Char)) (n : Nat) (cur : Date) (prev : Option Time) :
    parse_records_aux (raw :: rest) n cur prev =
      match parse_records_aux rest (n + 1) (stepDate cur prev t) (some t) with
      | .error e => .error e
      | .ok recs => .ok (⟨⟨stepDate cur prev t, t⟩, comp, pct⟩ :: recs) := by
  unfold lineEvent at he
  by_cases hb : (strip raw).isEmpty
  · rw [if_pos hb] at he
    cases he
  · rw [if_neg hb] at he
    cases hm : matchLine (strip raw) with
    | none => simp [hm] at he
    | some v =>
      obtain ⟨c, comp2, pct2⟩ := v
      simp only [hm] at he
      cases hn : normalize_clock c with
      | error e => simp [hn] at he
      | ok nc =>
        simp only [hn] at he
        cases hs : strptimeHM nc with
        | error e => simp [hs] at he
        | ok t2 =>
          simp only [hs, Option.some.injEq, Prod.mk.injEq] at he
          obtain ⟨rfl, rfl, rfl⟩ := he
          simp only [parse_records_aux, hm, hn, hs]
          rw [if_neg hb]

theorem parse_aux_pattern_err {raw : List Char} (hb : (strip raw).isEmpty = false)
    (hm : matchLine (strip raw) = none)
    (rest : List (List Char)) (n : Nat) (cur : Date) (prev : Option Time) :
    parse_records_aux (raw :: rest) n cur prev = .error (.patternError n raw) := by
  simp only [parse_records_aux, hm]
  rw [if_neg (by simp [hb])]

theorem parse_aux_norm_err {raw c comp : List Char} {pct : Nat} {e : PyError}
    (hb : (strip raw).isEmpty = false)
    (hm : matchLine (strip raw) = some (c, comp, pct))
    (hn : normalize_clock c = .error e)
    (rest : List (List Char)) (n : Nat) (cur : Date) (prev : Option Time) :
    parse_records_aux (raw :: rest) n cur prev = .error e := by
  simp only [parse_records_aux, hm, hn]
  rw [if_neg (by simp [hb])]

theorem parse_aux_strptime_err {raw c comp nc : List Char} {pct : Nat} {e : PyError}
    (hb : (strip raw).isEmpty = false)
    (hm : matchLine (strip raw) = some (c, comp, pct))
    (hn : normalize_clock c = .ok nc)
    (hs : strptimeHM nc = .error e)
    (rest : List (List Char)) (n : Nat) (cur : Date) (prev : Option Time) :
    parse_records_aux (raw :: rest) n cur prev = .error e := by
  simp only [parse_records_aux, hm, hn, hs]
  rw [if_neg (by simp [hb])]

theorem parse_aux_fail {raw : List Char} (hb : (strip raw).isEmpty = false)
    (hle : lineEvent raw = none) (rest : List (List Char)) (n : Nat) (cur : Date)
    (prev : Option Time) :
    ∃ e, parse_records_aux (raw :: rest) n cur prev = .error e := by
  unfold lineEvent at hle
  rw [if_neg (by simp [hb])] at hle
  cases hm : matchLine (strip raw) with
  | none => exact ⟨_, parse_aux_pattern_err hb hm rest n cur prev⟩
  | some v =>
    obtain ⟨c, comp, pct⟩ := v
    simp only [hm] at hle
    cases hn : normalize_clock c with
    | error e => exact ⟨e, parse_aux_norm_err hb hm hn rest n cur prev⟩
    | ok nc =>
      simp only [hn] at hle
      cases hs : strptimeHM nc with
      | error e => exact ⟨e, parse_aux_strptime_err hb hm hn hs rest n cur prev⟩
      | ok t => simp [hs] at hle

theorem parse_aux_events : ∀ (lines : List (List Char)) (n : Nat) (cur : Date)
    (prev : Option Time) (recs : List DispatchRecord),
    parse_records_aux lines n cur prev = .ok recs →
    recs.map recordEvent = acceptedEvents lines
  | [], _, _, _, recs, h => by
    injection h with h
    subst h
    rfl
  | raw :: rest, n, cur, prev, recs, h => by
    cases hle : lineEvent raw with
    | none =>
      by_cases hb : (strip raw).isEmpty
      · rw [parse_aux_blank hb] at h
        have := parse_aux_events rest (n + 1) cur prev recs h
        simpa [acceptedEvents, List.filterMap_cons, hle] using this
      · obtain ⟨e, he⟩ :=
          parse_aux_fail (by simpa using hb) hle rest n cur prev
        rw [he] at h
        cases h
    | some v =>
      obtain ⟨t, comp, pct⟩ := v
      rw [parse_aux_event hle] at h
      cases hr : parse_records_aux rest (n + 1) (stepDate cur prev t) (some t) with
      | error e =>
        rw [hr] at h
        cases h
      | ok recs2 =>
        rw [hr] at h
        injection h with h
        subst h
        have := parse_aux_events rest (n + 1) (stepDate cur prev t) (some t) recs2 hr
        simpa [acceptedEvents, List.filterMap_cons, hle, recordEvent] using this

theorem parse_aux_dates_const : ∀ (lines : List (List Char)) (n : Nat) (cur : Date)
    (prev : Option Time) (recs : List DispatchRecord),
    parse_records_aux lines n cur prev = .ok recs →
    List.Chain' (fun a b => timeLt b a = false)
      (prev.toList ++ recs.map fun r => r.timestamp.time) →
    ∀ r ∈ recs, r.timestamp.date = cur
  | [], _, _, _, recs, h, _ => by
    injection h with h
    subst h
    simp
  | raw :: rest, n, cur, prev, recs, h, hch => by
    cases hle : lineEvent raw with
    | none =>
      by_cases hb : (strip raw).isEmpty
      · rw [parse_aux_blank hb] at h
        exact parse_aux_dates_const rest (n + 1) cur prev recs h hch
      · obtain ⟨e, he⟩ :=
          parse_aux_fail (by simpa using hb) hle rest n cur prev
        rw [he] at h
        cases h
    | some v =>
      obtain ⟨t, comp, pct⟩ := v
      rw [parse_aux_event hle] at h
      cases hr : parse_records_aux rest (n + 1) (stepDate cur prev t) (some t) with
      | error e =>
        rw [hr] at h
        cases h
      | ok recs2 =>
        rw [hr] at h
        injection h with h
        subst h
        simp only [List.map_cons] at hch
        have hstep : stepDate cur prev t = cur := by
          cases prev with
          | none => rfl
          | some p =>
            have hpt : timeLt t p = false := (List.chain'_cons.mp hch).1
            simp [stepDate, hpt]
        have htail : List.Chain' (fun a b => timeLt b a = false)
            ((some t : Option Time).toList ++ recs2.map fun r => r.timestamp.time) := by
          cases prev with
          | none => simpa using hch
          | some p => simpa using (List.chain'_cons.mp hch).2
        intro r hrm
        rcases List.mem_cons.mp hrm with rfl | hrm2
        · exact hstep
        · have := parse_aux_dates_const rest (n + 1) (stepDate cur prev t) (some t)
            recs2 hr htail r hrm2
          rw [this, hstep]

theorem isHHMM_shape {l : List Char} (h : isHHMM l = true) :
    ∃ a b d e, l = [a, b, ':', d, e] ∧ isDigit a = true ∧ isDigit b = true ∧
      isDigit d = true ∧ isDigit e = true := by
  rcases l with _ | ⟨a, _ | ⟨b, _ | ⟨s, _ | ⟨d, _ | ⟨e, _ | rest⟩⟩⟩⟩⟩ <;>
    simp only [isHHMM] at h
  · cases h
  · cases h
  · cases h
  · cases h
  · cases h
  · simp only [Bool.and_eq_true, beq_iff_eq] at h
    obtain ⟨⟨⟨⟨ha, hb⟩, hs⟩, hd⟩, he⟩ := h
    subst hs
    exact ⟨a, b, d, e, rfl, ha, hb, hd, he⟩
  · cases h

theorem normalize_ok {c nc : List Char} (h : normalize_clock c = .ok nc) :
    isHHMM nc = true ∧ nc = clockTransform c := by
  simp only [normalize_clock] at h
  by_cases hs : isHHMM (clockTransform c)
  · rw [if_pos hs] at h
    injection h with h
    subst h
    exact ⟨hs, rfl⟩
  · rw [if_neg hs] at h
    cases h

theorem strptimeHM_out_of_range {nc : List Char} (hsh : isHHMM nc = true)
    (hr : 23 < hhmmHour nc ∨ 59 < hhmmMinute nc) :
    strptimeHM nc = .error (.valueError nc) := by
  obtain ⟨a, b, d, e, rfl, ha, hb, hd, he⟩ := isHHMM_shape hsh
  have hr2 : 23 < charToDigit a * 10 + charToDigit b ∨
      59 < charToDigit d * 10 + charToDigit e := hr
  simp only [strptimeHM]
  rw [if_pos (by simp [ha, hb, hd, he])]
  rw [if_neg (by
    simp only [Bool.and_eq_true, decide_eq_true_eq, not_and]
    omega)]

theorem parse_aux_first_bad : ∀ (pre : List (List Char)) (bad : List Char)
    (rest : List (List Char)) (n : Nat) (cur : Date) (prev : Option Time),
    (∀ l ∈ pre, lineOk l = true) →
    (strip bad).isEmpty = false →
    matchLine (strip bad) = none →
    parse_records_aux (pre ++ bad :: rest) n cur prev =
      .error (.patternError (n + pre.length) bad)
  | [], bad, rest, n, cur, prev, _, hb, hm => by
    simpa using parse_aux_pattern_err hb hm rest n cur prev
  | l :: pre2, bad, rest, n, cur, prev, hpre, hb, hm => by
    have hl := hpre l (List.mem_cons_self l pre2)
    have hpre2 : ∀ x ∈ pre2, lineOk x = true :=
      fun x hx => hpre x (List.mem_cons_of_mem l hx)
    have harith : n + 1 + pre2.length = n + (l :: pre2).length := by
      simp only [List.length_cons]
      omega
    by_cases hbl : (strip l).isEmpty
    · rw [List.cons_append, parse_aux_blank hbl,
        parse_aux_first_bad pre2 bad rest (n + 1) cur prev hpre2 hb hm, harith]
    · have hev : (lineEvent l).isSome = true := by
        have hl2 : (strip l).isEmpty = true ∨ (lineEvent l).isSome = true := by
          simpa [lineOk, Bool.or_eq_true] using hl
        rcases hl2 with hcon | hgood
        · exact absurd hcon hbl
        · exact hgood
      obtain ⟨⟨t, comp, pct⟩, hle⟩ := Option.isSome_iff_exists.mp hev
      rw [List.cons_append, parse_aux_event hle,
        parse_aux_first_bad pre2 bad rest (n + 1) (stepDate cur prev t) (some t) hpre2 hb hm]
      rw [← harith]

theorem addHours3_eq_addMinutes (dt : DateTime) (h23 : dt.time.hour ≤ 23)
    (h59 : dt.time.minute ≤ 59) : addHours3 dt = addMinutes dt 180 := by
  obtain ⟨d, ⟨h, m⟩⟩ := dt
  have hh : h ≤ 23 := h23
  have hm2 : m ≤ 59 := h59
  simp only [addHours3, addMinutes]
  by_cases hc : h + 3 ≤ 23
  · rw [if_pos hc]
    have e0 : (h * 60 + m + 180) / 1440 = 0 := by omega
    have e1 : (h * 60 + m + 180) % 1440 / 60 = h + 3 := by omega
    have e2 : (h * 60 + m + 180) % 60 = m := by omega
    rw [e0, e1, e2]
    rfl
  · rw [if_neg hc]
    have e0 : (h * 60 + m + 180) / 1440 = 1 := by omega
    have e1 : (h * 60 + m + 180) % 1440 / 60 = h + 3 - 24 := by omega
    have e2 : (h * 60 + m + 180) % 60 = m := by omega
    rw [e0, e1, e2]
    rfl

theorem isDigit_digitChar {k : Nat} (h : k < 10) : isDigit (digitChar k) = true := by
  interval_cases k <;> decide

theorem charToDigit_digitChar {k : Nat} (h : k < 10) : charToDigit (digitChar k) = k := by
  interval_cases k <;> decide

theorem digitsToNat_append (l : List Char) (c : Char) :
    digitsToNat (l ++ [c]) = digitsToNat l * 10 + charToDigit c := by
  simp [digitsToNat, List.foldl_append]

theorem natDigits_all_digits (n : Nat) : ∀ c ∈ natDigits n, isDigit c = true := by
  induction n using Nat.strong_induction_on with
  | _ n ih =>
    rw [natDigits]
    by_cases h : n < 10
    · rw [dif_pos h]
      intro c hc
      simp only [List.mem_singleton] at hc
      subst hc
      exact isDigit_digitChar h
    · rw [dif_neg h]
      intro c hc
      rcases List.mem_append.mp hc with h1 | h2
      · exact ih (n / 10) (Nat.div_lt_self (by omega) (by omega)) c h1
      · simp only [List.mem_singleton] at h2
        subst h2
        exact isDigit_digitChar (Nat.mod_lt n (by omega))

theorem natDigits_ne_nil (n : Nat) : natDigits n ≠ [] := by
  rw [natDigits]
  by_cases h : n < 10
  · rw [dif_pos h]
    simp
  · rw [dif_neg h]
    simp

theorem digitsToNat_natDigits (n : Nat) : digitsToNat (natDigits n) = n := by
  induction n using Nat.strong_induction_on with
  | _ n ih =>
    rw [natDigits]
    by_cases h : n < 10
    · rw [dif_pos h]
      simp [digitsToNat, charToDigit_digitChar h]
    · rw [dif_neg h]
      rw [digitsToNat_append, ih (n / 10) (Nat.div_lt_self (by omega) (by omega)),
        charToDigit_digitChar (Nat.mod_lt n (by omega))]
      omega

theorem takeDigits_append {ds rest : List Char} (hds : ∀ c ∈ ds, isDigit c = true)
    (hrest : ∀ c, rest.head? = some c → isDigit c = false) :
    takeDigits (ds ++ rest) = (ds, rest) := by
  induction ds with
  | nil =>
    cases rest with
    | nil => rfl
    | cons r0 tl => simp [takeDigits, hrest r0 rfl]
  | cons c tl ih =>
    have hc := hds c (List.mem_cons_self c tl)
    have ih2 := ih (fun d hd => hds d (List.mem_cons_of_mem c hd))
    simp only [List.cons_append, takeDigits, hc, if_true, List.append_eq, ih2]

theorem dropWhile_eq_self_of_head {p : Char → Bool} {l : List Char}
    (h : ∀ c, l.head? = some c → p c = false) : l.dropWhile p = l := by
  cases l with
  | nil => rfl
  | cons c tl => simp [List.dropWhile_cons, h c rfl]

theorem strip_eq_self_of_ends {l : List Char}
    (h1 : ∀ c, l.head? = some c → isSpace c = false)
    (h2 : ∀ c, l.getLast? = some c → isSpace c = false) : strip l = l := by
  unfold strip
  rw [dropWhile_eq_self_of_head h1]
  rw [dropWhile_eq_self_of_head (by simpa [List.head?_reverse] using h2)]
  exact List.reverse_reverse l


theorem isSpace_false_of_upper {c : Char} (h : isUpper c = true) : isSpace c = false := by
  cases hb : isSpace c
  · rfl
  · exfalso
    simp only [isSpace, Bool.or_eq_true, beq_iff_eq] at hb
    rcases hb with ((((rfl | rfl) | rfl) | rfl) | rfl) | rfl <;> exact absurd h (by decide)

theorem expectLit_refl : ∀ (lit r : List Char), expectLit lit (lit ++ r) = some r
  | [], r => rfl
  | c :: cs, r => by simp [expectLit, expectLit_refl cs r]

theorem dropWhile_abertura (x : List Char) :
    List.dropWhile isSpace (aberturaLit ++ x) = aberturaLit ++ x := by
  have he : aberturaLit ++ x = 'A' :: (( "bertura da tela de Despacho").toList ++ x) := rfl
  rw [he, List.dropWhile_cons]
  simp [show isSpace 'A' = false from rfl]

theorem dropWhile_excedido (x : List Char) :
    List.dropWhile isSpace (excedidoLit ++ x) = excedidoLit ++ x := by
  have he : excedidoLit ++ x = 'E' :: (( "XCEDIDO EM:").toList ++ x) := rfl
  rw [he, List.dropWhile_cons]
  simp [show isSpace 'E' = false from rfl]

theorem matchLine_render (h m : Nat) (c1 c2 c3 : Char) (p : Nat)
    (hh : h ≤ 23) (hm9 : m ≤ 59)
    (hu1 : isUpper c1 = true) (hu2 : isUpper c2 = true) (hu3 : isUpper c3 = true) :
    matchLine (render ⟨h, m⟩ [c1, c2, c3] p) =
      some ([digitChar (h / 10), digitChar (h % 10), ':',
             digitChar (m / 10), digitChar (m % 10)], [c1, c2, c3], p) := by
  obtain ⟨d0, dtl, hnd⟩ := List.exists_cons_of_ne_nil (natDigits_ne_nil p)
  have hdig : ∀ c ∈ d0 :: dtl, isDigit c = true := by
    rw [← hnd]
    exact natDigits_all_digits p
  have htd2 : takeDigits ((d0 :: dtl) ++ [ '%' ]) = (d0 :: dtl, [ '%' ]) :=
    takeDigits_append hdig (by
      intro c hc
      injection hc with hc
      subst hc
      decide)
  have htd3 : takeDigits (d0 :: (dtl ++ [ '%' ])) = (d0 :: dtl, [ '%' ]) := by
    rw [← List.cons_append]
    exact htd2
  have hdg2 : digitsToNat (d0 :: dtl) = p := by
    rw [← hnd]
    exact digitsToNat_natDigits p
  have hd1 : isDigit (digitChar (h / 10)) = true := isDigit_digitChar (by omega)
  have hd2 : isDigit (digitChar (h % 10)) = true := isDigit_digitChar (by omega)
  have hd3 : isDigit (digitChar (m / 10)) = true := isDigit_digitChar (by omega)
  have hd4 : isDigit (digitChar (m % 10)) = true := isDigit_digitChar (by omega)
  have hsd0 : isSpace d0 = false := isSpace_false_of_digit (hdig d0 (List.mem_cons_self d0 dtl))
  have hsc1 : isSpace c1 = false := isSpace_false_of_upper hu1
  simp only [render]
  rw [hnd]
  simp [pad2, matchLine, matchClock, dropSpaces, List.dropWhile_cons,
    expectDash, isDash, expectLit_refl, dropWhile_abertura, dropWhile_excedido,
    htd3, hdg2, hd1, hd2, hd3, hd4, hu1, hu2, hu3, hsd0, hsc1,
    show isSpace ' ' = true from rfl, show isSpace '-' = false from rfl,
    show isSpace '%' = false from rfl,
    show (( ' ' : Char) == 'h') = false from rfl,
    show isDash '-' = true from rfl,
    List.cons_append, List.nil_append, List.append_assoc]

theorem strptimeHM_ok_bounds {s : List Char} {t : Time} (h : strptimeHM s = .ok t) :
    t.hour ≤ 23 ∧ t.minute ≤ 59 := by
  rcases s with _ | ⟨a, _ | ⟨b, _ | ⟨sep, _ | ⟨d, _ | ⟨e, _ | rest⟩⟩⟩⟩⟩ <;>
    simp only [strptimeHM] at h <;> try (cases h)
  split at h
  · split at h
    · rename_i hcond
      injection h with h
      subst h
      simpa using hcond
    · cases h
  · cases h

theorem matchLine_company {l ck c : List Char} {p : Nat} (h : matchLine l = some (ck, c, p)) :
    ∃ a b d, c = [a, b, d] ∧ isUpper a = true ∧ isUpper b = true ∧ isUpper d = true := by
  unfold matchLine at h
  repeat' split at h
  all_goals try (cases h)
  refine ⟨_, _, _, rfl, ?_, ?_, ?_⟩ <;> simp_all

theorem normalize_clock_digits {a b d e : Char} (ha : isDigit a = true)
    (hb : isDigit b = true) (hd : isDigit d = true) (he : isDigit e = true) :
    normalize_clock [a, b, ':', d, e] = .ok [a, b, ':', d, e] := by
  have hmem : ∀ c ∈ [a, b, ':', d, e], isDigit c = true ∨ c = ':' := by
    intro c hc
    simp only [List.mem_cons, List.not_mem_nil, or_false] at hc
    rcases hc with rfl | rfl | rfl | rfl | rfl
    · exact Or.inl ha
    · exact Or.inl hb
    · exact Or.inr rfl
    · exact Or.inl hd
    · exact Or.inl he
  have h1 : strip [a, b, ':', d, e] = [a, b, ':', d, e] :=
    strip_of_no_space (fun c hc => by
      rcases hmem c hc with hdig | rfl
      · exact isSpace_false_of_digit hdig
      · rfl)
  have h2 : List.map asciiLower [a, b, ':', d, e] = [a, b, ':', d, e] := by
    simp only [List.map_cons, List.map_nil, asciiLower_of_digit ha, asciiLower_of_digit hb,
      asciiLower_of_digit hd, asciiLower_of_digit he, show asciiLower ':' = ':' from rfl]
  have h3 : ([a, b, ':', d, e] : List Char).getLast? = some e := rfl
  have h4 : (some e == some 'h') = false :=
    beq_false_of_digit_nondigit he (by decide)
  have ht : clockTransform [a, b, ':', d, e] = [a, b, ':', d, e] := by
    unfold clockTransform
    simp only [h1, h2, h3, h4]
    rw [if_neg (by simp)]
    simp only [List.map_cons, List.map_nil,
      beq_false_of_digit_nondigit ha (show isDigit 'h' = false by decide),
      beq_false_of_digit_nondigit hb (show isDigit 'h' = false by decide),
      beq_false_of_digit_nondigit hd (show isDigit 'h' = false by decide),
      beq_false_of_digit_nondigit he (show isDigit 'h' = false by decide),
      show (( ':' : Char) == 'h') = false from rfl]
    simp
  have hshape : isHHMM [a, b, ':', d, e] = true := by
    simp [isHHMM, ha, hb, hd, he]
  simp [normalize_clock, ht, hshape]

theorem strptimeHM_digits (h m : Nat) (hh : h ≤ 23) (hm9 : m ≤ 59) :
    strptimeHM [digitChar (h / 10), digitChar (h % 10), ':',
      digitChar (m / 10), digitChar (m % 10)] = .ok ⟨h, m⟩ := by
  have hd1 : isDigit (digitChar (h / 10)) = true := isDigit_digitChar (by omega)
  have hd2 : isDigit (digitChar (h % 10)) = true := isDigit_digitChar (by omega)
  have hd3 : isDigit (digitChar (m / 10)) = true := isDigit_digitChar (by omega)
  have hd4 : isDigit (digitChar (m % 10)) = true := isDigit_digitChar (by omega)
  simp only [strptimeHM]
  rw [if_pos (by simp [hd1, hd2, hd3, hd4])]
  rw [charToDigit_digitChar (show h / 10 < 10 by omega),
    charToDigit_digitChar (show h % 10 < 10 by omega),
    charToDigit_digitChar (show m / 10 < 10 by omega),
    charToDigit_digitChar (show m % 10 < 10 by omega)]
  have e1 : h / 10 * 10 + h % 10 = h := by omega
  have e2 : m / 10 * 10 + m % 10 = m := by omega
  rw [e1, e2, if_pos (by simp [hh, hm9])]

theorem lineEvent_render (h m : Nat) (c1 c2 c3 : Char) (p : Nat)
    (hh : h ≤ 23) (hm9 : m ≤ 59)
    (hu1 : isUpper c1 = true) (hu2 : isUpper c2 = true) (hu3 : isUpper c3 = true) :
    lineEvent (render ⟨h, m⟩ [c1, c2, c3] p) = some (⟨h, m⟩, [c1, c2, c3], p) := by
  have hstrip : strip (render ⟨h, m⟩ [c1, c2, c3] p) = render ⟨h, m⟩ [c1, c2, c3] p := by
    apply strip_eq_self_of_ends
    · intro c hc
      have hhd : (render ⟨h, m⟩ [c1, c2, c3] p).head? = some (digitChar (h / 10)) := rfl
      rw [hhd] at hc
      injection hc with hc
      subst hc
      exact isSpace_false_of_digit (isDigit_digitChar (by omega))
    · intro c hc
      have hlast : (render ⟨h, m⟩ [c1, c2, c3] p).getLast? = some '%' := by
        unfold render
        exact List.getLast?_concat _
      rw [hlast] at hc
      injection hc with hc
      subst hc
      rfl
  have hie : (render ⟨h, m⟩ [c1, c2, c3] p).isEmpty = false := rfl
  have hmr := matchLine_render h m c1 c2 c3 p hh hm9 hu1 hu2 hu3
  have hd1 : isDigit (digitChar (h / 10)) = true := isDigit_digitChar (by omega)
  have hd2 : isDigit (digitChar (h % 10)) = true := isDigit_digitChar (by omega)
  have hd3 : isDigit (digitChar (m / 10)) = true := isDigit_digitChar (by omega)
  have hd4 : isDigit (digitChar (m % 10)) = true := isDigit_digitChar (by omega)
  have hnc := normalize_clock_digits hd1 hd2 hd3 hd4
  have hsp := strptimeHM_digits h m hh hm9
  simp only [lineEvent, hstrip, hie, hmr, hnc, hsp]
  simp

theorem lineEvent_valid {l : List Char} {t : Time} {c : List Char} {p : Nat}
    (h : lineEvent l = some (t, c, p)) :
    t.hour ≤ 23 ∧ t.minute ≤ 59 ∧
    ∃ a b d, c = [a, b, d] ∧ isUpper a = true ∧ isUpper b = true ∧ isUpper d = true := by
  unfold lineEvent at h
  by_cases hb : (strip l).isEmpty
  · rw [if_pos hb] at h
    cases h
  · rw [if_neg hb] at h
    cases hm : matchLine (strip l) with
    | none => simp [hm] at h
    | some v =>
      obtain ⟨ck, comp, pct⟩ := v
      simp only [hm] at h
      cases hn : normalize_clock ck with
      | error e => simp [hn] at h
      | ok nc =>
        simp only [hn] at h
        cases hs : strptimeHM nc with
        | error e => simp [hs] at h
        | ok t2 =>
          simp only [hs, Option.some.injEq, Prod.mk.injEq] at h
          obtain ⟨rfl, rfl, rfl⟩ := h
          obtain ⟨hb1, hb2⟩ := strptimeHM_ok_bounds hs
          exact ⟨hb1, hb2, matchLine_company hm⟩

/-! ## Claims -/

/-- Claim C1: with clock times 23:50 then 00:10 and shift date 2024-01-01,
sequencing dates the first record 2024-01-01 and the second 2024-01-02;
in general, whenever a previous clock time exists and the current clock is
strictly earlier, the running date advances by exactly one calendar day
before the timestamp is composed. -/
theorem claim_C1_rollover (cur : Date) (p t : Time) (h : timeLt t p = true) :
    stepDate cur (some p) t = nextDay cur ∧
    parse_records
        [( "23:50 - Abertura da tela de Despacho - ABC - EXCEDIDO EM: 10%").toList,
         ( "00:10 - Abertura da tela de Despacho - ABC - EXCEDIDO EM: 10%").toList]
        ⟨2024, 1, 1⟩ =
      .ok [⟨⟨⟨2024, 1, 1⟩, ⟨23, 50⟩⟩, ( "ABC").toList, 10⟩,
           ⟨⟨⟨2024, 1, 2⟩, ⟨0, 10⟩⟩, ( "ABC").toList, 10⟩] := by
  refine ⟨?_, by rfl⟩
  simp [stepDate, h]

theorem claim_C1_rollover_witness :
    timeLt ⟨0, 10⟩ ⟨23, 50⟩ = true ∧
    (stepDate ⟨2024, 1, 1⟩ (some ⟨23, 50⟩) ⟨0, 10⟩ = nextDay ⟨2024, 1, 1⟩ ∧
     parse_records
        [( "23:50 - Abertura da tela de Despacho - ABC - EXCEDIDO EM: 10%").toList,
         ( "00:10 - Abertura da tela de Despacho - ABC - EXCEDIDO EM: 10%").toList]
        ⟨2024, 1, 1⟩ =
      .ok [⟨⟨⟨2024, 1, 1⟩, ⟨23, 50⟩⟩, ( "ABC").toList, 10⟩,
           ⟨⟨⟨2024, 1, 2⟩, ⟨0, 10⟩⟩, ( "ABC").toList, 10⟩]) :=
  ⟨by decide, claim_C1_rollover ⟨2024, 1, 1⟩ ⟨23, 50⟩ ⟨0, 10⟩ (by decide)⟩

/-- Claim C3: equal consecutive clock times never trigger a rollover: the
strict comparison keeps the current date on a tie, and with clocks 10:00
then 10:00 both records carry the shift date. -/
theorem claim_C3_tie (cur : Date) (t : Time) :
    stepDate cur (some t) t = cur ∧
    parse_records
        [( "10:00 - Abertura da tela de Despacho - ABC - EXCEDIDO EM: 10%").toList,
         ( "10:00 - Abertura da tela de Despacho - ABC - EXCEDIDO EM: 10%").toList]
        ⟨2024, 1, 1⟩ =
      .ok [⟨⟨⟨2024, 1, 1⟩, ⟨10, 0⟩⟩, ( "ABC").toList, 10⟩,
           ⟨⟨⟨2024, 1, 1⟩, ⟨10, 0⟩⟩, ( "ABC").toList, 10⟩] := by
  refine ⟨?_, by rfl⟩
  simp [stepDate, timeLt_irrefl]

/-- Claim C2: whenever the output's clock-time sequence (which is exactly
the sequence of accepted input clock times, one per non-blank valid line)
is non-decreasing, every output record's date equals the operator-supplied
shift date: the date is never advanced. -/
theorem claim_C2_nondecreasing_keeps_shift_date (lines : List (List Char)) (d : Date)
    (recs : List DispatchRecord)
    (hok : parse_records lines d = .ok recs)
    (hmono : List.Chain' (fun a b => timeLt b a = false)
      (recs.map fun r => r.timestamp.time)) :
    ∀ r ∈ recs, r.timestamp.date = d :=
  parse_aux_dates_const lines 1 d none recs hok (by simpa using hmono)

theorem claim_C2_nondecreasing_keeps_shift_date_witness :
    (parse_records
        [( "10:00 - Abertura da tela de Despacho - ABC - EXCEDIDO EM: 10%").toList,
         ( "11:00 - Abertura da tela de Despacho - DEF - EXCEDIDO EM: 7%").toList]
        ⟨2024, 1, 1⟩ =
      .ok [⟨⟨⟨2024, 1, 1⟩, ⟨10, 0⟩⟩, ( "ABC").toList, 10⟩,
           ⟨⟨⟨2024, 1, 1⟩, ⟨11, 0⟩⟩, ( "DEF").toList, 7⟩]) ∧
    List.Chain' (fun a b => timeLt b a = false)
      (([⟨⟨⟨2024, 1, 1⟩, ⟨10, 0⟩⟩, ( "ABC").toList, 10⟩,
         ⟨⟨⟨2024, 1, 1⟩, ⟨11, 0⟩⟩, ( "DEF").toList, 7⟩] :
          List DispatchRecord).map fun r => r.timestamp.time) ∧
    ∀ r ∈ ([⟨⟨⟨2024, 1, 1⟩, ⟨10, 0⟩⟩, ( "ABC").toList, 10⟩,
            ⟨⟨⟨2024, 1, 1⟩, ⟨11, 0⟩⟩, ( "DEF").toList, 7⟩] :
          List DispatchRecord), r.timestamp.date = ⟨2024, 1, 1⟩ :=
  ⟨by rfl,
    by
      simp only [List.map_cons, List.map_nil]
      exact List.chain'_cons.mpr ⟨by decide, List.chain'_singleton _⟩,
    claim_C2_nondecreasing_keeps_shift_date
      [( "10:00 - Abertura da tela de Despacho - ABC - EXCEDIDO EM: 10%").toList,
       ( "11:00 - Abertura da tela de Despacho - DEF - EXCEDIDO EM: 7%").toList]
      ⟨2024, 1, 1⟩
      [⟨⟨⟨2024, 1, 1⟩, ⟨10, 0⟩⟩, ( "ABC").toList, 10⟩,
       ⟨⟨⟨2024, 1, 1⟩, ⟨11, 0⟩⟩, ( "DEF").toList, 7⟩]
      (by rfl)
      (by
        simp only [List.map_cons, List.map_nil]
        exact List.chain'_cons.mpr ⟨by decide, List.chain'_singleton _⟩)⟩

/-- Claim C5: on success the output records carry exactly the accepted
events (one record per non-blank line that parses) in input order, so the
record count equals the accepted event count; a blank line is skipped
silently (the loop just moves to the next line number), and an empty input
yields an empty output. -/
theorem claim_C5_order_count_blank_skip (lines : List (List Char)) (d : Date)
    (recs : List DispatchRecord) (blank : List Char) (rest : List (List Char))
    (n : Nat) (cur : Date) (prev : Option Time)
    (hok : parse_records lines d = .ok recs)
    (hblank : (strip blank).isEmpty = true) :
    recs.map recordEvent = acceptedEvents lines ∧
    recs.length = (acceptedEvents lines).length ∧
    parse_records_aux (blank :: rest) n cur prev = parse_records_aux rest (n + 1) cur prev ∧
    parse_records [] d = .ok [] := by
  have h1 := parse_aux_events lines 1 d none recs hok
  refine ⟨h1, ?_, parse_aux_blank hblank rest n cur prev, rfl⟩
  rw [← h1, List.length_map]

theorem claim_C5_order_count_blank_skip_witness :
    (([⟨⟨⟨2024, 1, 1⟩, ⟨10, 0⟩⟩, ( "ABC").toList, 10⟩] :
        List DispatchRecord).map recordEvent =
      acceptedEvents
        [( "   ").toList,
         ( "10:00 - Abertura da tela de Despacho - ABC - EXCEDIDO EM: 10%").toList]) ∧
    ([⟨⟨⟨2024, 1, 1⟩, ⟨10, 0⟩⟩, ( "ABC").toList, 10⟩] :
        List DispatchRecord).length =
      (acceptedEvents
        [( "   ").toList,
         ( "10:00 - Abertura da tela de Despacho - ABC - EXCEDIDO EM: 10%").toList]).length ∧
    parse_records_aux (( "   ").toList :: [( "x").toList]) 7 ⟨2024, 1, 1⟩ none =
      parse_records_aux [( "x").toList] (7 + 1) ⟨2024, 1, 1⟩ none ∧
    parse_records [] ⟨2024, 1, 1⟩ = .ok [] :=
  claim_C5_order_count_blank_skip
    [( "   ").toList,
     ( "10:00 - Abertura da tela de Despacho - ABC - EXCEDIDO EM: 10%").toList]
    ⟨2024, 1, 1⟩
    [⟨⟨⟨2024, 1, 1⟩, ⟨10, 0⟩⟩, ( "ABC").toList, 10⟩]
    ( "   ").toList [( "x").toList] 7 ⟨2024, 1, 1⟩ none
    (by rfl) (by rfl)

/-- Claim C6: the three clock spellings 08h30h, 08h30 and 08:30 all
normalize to the same value, and any clock whose normalized form fails the
two-digit-colon-two-digit shape raises the distinct invalid-clock
`ParseError` carrying the offending clock text. -/
theorem claim_C6_clock_normalization (clock : List Char)
    (h : isHHMM (clockTransform clock) = false) :
    normalize_clock clock = .error (.invalidClock clock) ∧
    (normalize_clock ( "08h30h").toList = normalize_clock ( "08h30").toList ∧
     normalize_clock ( "08h30").toList = normalize_clock ( "08:30").toList ∧
     normalize_clock ( "08:30").toList = .ok ( "08:30").toList) := by
  refine ⟨?_, by rfl, by rfl, by rfl⟩
  simp [normalize_clock, h]

theorem claim_C6_clock_normalization_witness :
    isHHMM (clockTransform ( "8:30").toList) = false ∧
    (normalize_clock ( "8:30").toList = .error (.invalidClock ( "8:30").toList) ∧
     (normalize_clock ( "08h30h").toList = normalize_clock ( "08h30").toList ∧
      normalize_clock ( "08h30").toList = normalize_clock ( "08:30").toList ∧
      normalize_clock ( "08:30").toList = .ok ( "08:30").toList)) :=
  ⟨by decide, claim_C6_clock_normalization ( "8:30").toList (by decide)⟩

/-- Claim C7: the adjusted timestamp is the record's timestamp plus a
fixed literal 3 hours (equivalently: 180 minutes added to the time of day
with whole days carried into the date), rendered at minute precision with
a literal Z suffix; in particular 2024-01-01T23:50 yields
"2024-01-02T02:50Z". -/
theorem claim_C7_adjusted_timestamp (r : DispatchRecord)
    (h23 : r.timestamp.time.hour ≤ 23) (h59 : r.timestamp.time.minute ≤ 59) :
    r.adjusted_iso = fmtDateTimeMin (addMinutes r.timestamp 180) ++ [ 'Z' ] ∧
    DispatchRecord.adjusted_iso ⟨⟨⟨2024, 1, 1⟩, ⟨23, 50⟩⟩, ( "ABC").toList, 10⟩ =
      ( "2024-01-02T02:50Z").toList := by
  refine ⟨?_, by rfl⟩
  rw [DispatchRecord.adjusted_iso, addHours3_eq_addMinutes r.timestamp h23 h59]

theorem claim_C7_adjusted_timestamp_witness :
    ((⟨⟨⟨2024, 1, 1⟩, ⟨23, 50⟩⟩, ( "ABC").toList, 10⟩ :
        DispatchRecord).timestamp.time.hour ≤ 23) ∧
    ((⟨⟨⟨2024, 1, 1⟩, ⟨23, 50⟩⟩, ( "ABC").toList, 10⟩ :
        DispatchRecord).adjusted_iso =
      fmtDateTimeMin
        (addMinutes (⟨⟨2024, 1, 1⟩, ⟨23, 50⟩⟩ : DateTime) 180) ++ [ 'Z' ] ∧
     DispatchRecord.adjusted_iso ⟨⟨⟨2024, 1, 1⟩, ⟨23, 50⟩⟩, ( "ABC").toList, 10⟩ =
      ( "2024-01-02T02:50Z").toList) :=
  ⟨by decide,
    claim_C7_adjusted_timestamp ⟨⟨⟨2024, 1, 1⟩, ⟨23, 50⟩⟩, ( "ABC").toList, 10⟩
      (by decide) (by decide)⟩

/-- Claim C4 (amended): for every input whose lines before the first
grammar-mismatching non-blank line all process cleanly (blank, or fully
valid including the clock range), parsing aborts with the `ParseError`
carrying the 1-based number and raw text of that line, and no record list
is ever produced; in particular the single input line "Despacho iniciado"
raises such an error referencing line 1.  (As originally stated — for
EVERY input containing a non-matching non-blank line — the claim fails:
an earlier grammar-matching line with an out-of-range clock aborts the run
with a plain `ValueError` first; see the counterexample.) -/
theorem claim_C4_first_grammar_mismatch (pre : List (List Char)) (bad : List Char)
    (rest : List (List Char)) (d : Date)
    (hpre : ∀ l ∈ pre, lineOk l = true)
    (hnb : (strip bad).isEmpty = false)
    (hnm : matchLine (strip bad) = none) :
    parse_records (pre ++ bad :: rest) d = .error (.patternError (pre.length + 1) bad) ∧
    (PyError.patternError (pre.length + 1) bad).isParseError = true ∧
    (∀ recs, parse_records (pre ++ bad :: rest) d ≠ .ok recs) ∧
    parse_records [( "Despacho iniciado").toList] d =
      .error (.patternError 1 ( "Despacho iniciado").toList) := by
  have h := parse_aux_first_bad pre bad rest 1 d none hpre hnb hnm
  have h1 : parse_records (pre ++ bad :: rest) d =
      .error (.patternError (pre.length + 1) bad) := by
    rw [parse_records, h, Nat.add_comm]
  refine ⟨h1, rfl, ?_, by rfl⟩
  intro recs hcon
  rw [h1] at hcon
  cases hcon

theorem claim_C4_first_grammar_mismatch_witness :
    (∀ l ∈ ([] : List (List Char)), lineOk l = true) ∧
    (strip ( "Despacho iniciado").toList).isEmpty = false ∧
    matchLine (strip ( "Despacho iniciado").toList) = none ∧
    (parse_records ([] ++ ( "Despacho iniciado").toList :: []) ⟨2024, 1, 1⟩ =
        .error (.patternError (List.length ([] : List (List Char)) + 1)
          ( "Despacho iniciado").toList) ∧
      (PyError.patternError (List.length ([] : List (List Char)) + 1)
          ( "Despacho iniciado").toList).isParseError = true ∧
      (∀ recs, parse_records ([] ++ ( "Despacho iniciado").toList :: []) ⟨2024, 1, 1⟩ ≠
        .ok recs) ∧
      parse_records [( "Despacho iniciado").toList] ⟨2024, 1, 1⟩ =
        .error (.patternError 1 ( "Despacho iniciado").toList)) :=
  ⟨by simp, by rfl, by rfl,
    claim_C4_first_grammar_mismatch [] ( "Despacho iniciado").toList [] ⟨2024, 1, 1⟩
      (by simp) (by rfl) (by rfl)⟩

/-- Claim C4 counterexample: this input contains a non-blank line that does
not match the top-level grammar ("Despacho iniciado"), yet parsing does not
raise any `ParseError`/`FormatError`: the earlier grammar-matching line with
clock 25:00 aborts the run first with `strptime`'s plain `ValueError`. -/
theorem claim_C4_counterexample :
    (strip ( "Despacho iniciado").toList).isEmpty = false ∧
    matchLine (strip ( "Despacho iniciado").toList) = none ∧
    parse_records
        [( "25:00 - Abertura da tela de Despacho - ABC - EXCEDIDO EM: 10%").toList,
         ( "Despacho iniciado").toList] ⟨2024, 1, 1⟩ =
      .error (.valueError ( "25:00").toList) ∧
    (PyError.valueError ( "25:00").toList).isParseError = false :=
  ⟨rfl, rfl, rfl, rfl⟩

/-- Claim C9: a line that matches the top-level grammar but whose
normalized clock has an out-of-range hour or minute is not processed
leniently and does not raise either `ParseError` shape: the run aborts
with the unwrapped `ValueError` from the `strptime` call. -/
theorem claim_C9_out_of_range_clock_unwrapped_error (raw : List Char) (d : Date)
    (clock comp nc : List Char) (pct : Nat)
    (hm : matchLine (strip raw) = some (clock, comp, pct))
    (hn : normalize_clock clock = .ok nc)
    (hr : 23 < hhmmHour nc ∨ 59 < hhmmMinute nc) :
    parse_records [raw] d = .error (.valueError nc) ∧
    (PyError.valueError nc).isParseError = false := by
  have hsh := (normalize_ok hn).1
  have hs := strptimeHM_out_of_range hsh hr
  have hb : (strip raw).isEmpty = false := by
    cases hE : (strip raw).isEmpty
    · rfl
    · exfalso
      have hnil : strip raw = [] := by
        simpa [List.isEmpty_iff] using hE
      rw [hnil] at hm
      cases hm
  exact ⟨parse_aux_strptime_err hb hm hn hs [] 1 d none, rfl⟩

theorem claim_C9_out_of_range_clock_unwrapped_error_witness :
    matchLine
        (strip ( "25:00 - Abertura da tela de Despacho - ABC - EXCEDIDO EM: 10%").toList) =
      some (( "25:00").toList, ( "ABC").toList, 10) ∧
    normalize_clock ( "25:00").toList = .ok ( "25:00").toList ∧
    (23 < hhmmHour ( "25:00").toList ∨ 59 < hhmmMinute ( "25:00").toList) ∧
    (parse_records
        [( "25:00 - Abertura da tela de Despacho - ABC - EXCEDIDO EM: 10%").toList]
        ⟨2024, 1, 1⟩ =
      .error (.valueError ( "25:00").toList) ∧
      (PyError.valueError ( "25:00").toList).isParseError = false) :=
  ⟨by rfl, by rfl, by decide,
    claim_C9_out_of_range_clock_unwrapped_error
      ( "25:00 - Abertura da tela de Despacho - ABC - EXCEDIDO EM: 10%").toList
      ⟨2024, 1, 1⟩ ( "25:00").toList ( "ABC").toList ( "25:00").toList 10
      (by rfl) (by rfl) (by decide)⟩

/-- Claim C8: clock normalization checks only the two-digit-colon-two-digit
shape and performs no numeric range validation: any such digit string is
accepted unchanged, and in particular 25:00 passes without an error. -/
theorem claim_C8_no_range_validation (a b d e : Char)
    (ha : isDigit a = true) (hb : isDigit b = true)
    (hd : isDigit d = true) (he : isDigit e = true) :
    normalize_clock [a, b, ':', d, e] = .ok [a, b, ':', d, e] ∧
    normalize_clock ( "25:00").toList = .ok ( "25:00").toList :=
  ⟨normalize_clock_digits ha hb hd he, by rfl⟩

theorem claim_C8_no_range_validation_witness :
    isDigit '2' = true ∧
    (normalize_clock [ '2', '5', ':', '0', '0' ] = .ok [ '2', '5', ':', '0', '0' ] ∧
     normalize_clock ( "25:00").toList = .ok ( "25:00").toList) :=
  ⟨by decide, claim_C8_no_range_validation '2' '5' '0' '0'
    (by decide) (by decide) (by decide) (by decide)⟩

/-- Claim C10 (amended): every valid line maps to exactly one
(clockTime, company, percent) triple, and two valid lines map to the same
triple exactly when they have the same canonical form (normalized clock,
canonical dash style and spacing, decimal percent).  (As originally
stated — two valid lines share a triple only when equal up to
clock-SEPARATOR normalization alone — the claim fails: lines differing
only in dash style or whitespace also collide; see the
counterexample.) -/
theorem claim_C10_triple_functional_canonical (l1 l2 : List Char)
    (e1 e2 : Time × List Char × Nat)
    (h1 : lineEvent l1 = some e1) (h2 : lineEvent l2 = some e2) :
    (∀ e0, lineEvent l1 = some e0 → e0 = e1) ∧
    (e1 = e2 ↔ canonLine l1 = canonLine l2) := by
  refine ⟨fun e0 h0 => Option.some.inj (h0.symm.trans h1), ?_⟩
  obtain ⟨t1, c1, p1⟩ := e1
  obtain ⟨t2, c2, p2⟩ := e2
  have hc1 : canonLine l1 = render t1 c1 p1 := by simp [canonLine, h1]
  have hc2 : canonLine l2 = render t2 c2 p2 := by simp [canonLine, h2]
  rw [hc1, hc2]
  obtain ⟨hA1, hA2, a1, a2, a3, rfl, hu1, hu2, hu3⟩ := lineEvent_valid h1
  obtain ⟨hB1, hB2, b1, b2, b3, rfl, hv1, hv2, hv3⟩ := lineEvent_valid h2
  obtain ⟨th1, tm1⟩ := t1
  obtain ⟨th2, tm2⟩ := t2
  constructor
  · intro he
    injection he with het herest
    injection herest with hec hep
    rw [het, hec, hep]
  · intro hr
    have r1 := lineEvent_render th1 tm1 a1 a2 a3 p1 hA1 hA2 hu1 hu2 hu3
    have r2 := lineEvent_render th2 tm2 b1 b2 b3 p2 hB1 hB2 hv1 hv2 hv3
    rw [hr, r2] at r1
    exact (Option.some.inj r1).symm

theorem claim_C10_triple_functional_canonical_witness :
    (∀ e0,
      lineEvent
          ( "08:30 - Abertura da tela de Despacho - ABC - EXCEDIDO EM: 10%").toList =
        some e0 →
      e0 = ((⟨8, 30⟩, ( "ABC").toList, 10) : Time × List Char × Nat)) ∧
    (((⟨8, 30⟩, ( "ABC").toList, 10) : Time × List Char × Nat) =
        (⟨8, 30⟩, ( "ABC").toList, 10) ↔
      canonLine
          ( "08:30 - Abertura da tela de Despacho - ABC - EXCEDIDO EM: 10%").toList =
        canonLine
          ( "08:30 – Abertura da tela de Despacho – ABC – EXCEDIDO EM: 10%").toList) :=
  claim_C10_triple_functional_canonical
    ( "08:30 - Abertura da tela de Despacho - ABC - EXCEDIDO EM: 10%").toList
    ( "08:30 – Abertura da tela de Despacho – ABC – EXCEDIDO EM: 10%").toList
    (⟨8, 30⟩, ( "ABC").toList, 10) (⟨8, 30⟩, ( "ABC").toList, 10)
    (by rfl) (by rfl)

/-- Claim C10 counterexample: two valid lines that differ in dash style
(hyphen versus en-dash) map to the same (clockTime, company, percent)
triple although they are not equal up to clock-separator normalization
(their clocks "08:30" are already normalized, and the lines still
differ). -/
theorem claim_C10_counterexample :
    lineEvent
        ( "08:30 - Abertura da tela de Despacho - ABC - EXCEDIDO EM: 10%").toList =
      some (⟨8, 30⟩, ( "ABC").toList, 10) ∧
    lineEvent
        ( "08:30 – Abertura da tela de Despacho – ABC – EXCEDIDO EM: 10%").toList =
      some (⟨8, 30⟩, ( "ABC").toList, 10) ∧
    normalizeLineClock
        ( "08:30 - Abertura da tela de Despacho - ABC - EXCEDIDO EM: 10%").toList ≠
      normalizeLineClock
        ( "08:30 – Abertura da tela de Despacho – ABC – EXCEDIDO EM: 10%").toList ∧
    ( "08:30 - Abertura da tela de Despacho - ABC - EXCEDIDO EM: 10%").toList ≠
      ( "08:30 – Abertura da tela de Despacho – ABC – EXCEDIDO EM: 10%").toList :=
  ⟨by rfl, by rfl, by decide, by decide⟩

end Despacho
